import Mathlib

/-!
Shallow embedding of the heuristic classification and aggregation pipeline of
the `on-bored` static-analysis report generator (the analyzer script embedded
in `HANDOFF.md` and the compliance score in `lib/generateHTML.js`).

Modeling conventions:
* JavaScript strings are Lean `String`s; all string algorithms are written
  structurally on `String.data : List Char` so that they evaluate in the
  kernel.
* JavaScript objects used as insertion-ordered count maps
  (`m[k] = (m[k] || 0) + 1`) are association lists `List (String × Nat)`
  where a key sits at the position of its first insertion.
* `Array.prototype.sort` with comparator `(a, b) => b[1] - a[1]` is a stable
  sort by descending count; it is embedded as a stable insertion sort.
* `Math.round(a / b)` for nonnegative `a, b` is `⌊a / b + 1/2⌋`, embedded as
  `(2 * a + b) / (2 * b)` in `Nat`.  (At the values reached by this program
  the JavaScript float evaluation agrees with the exact rational rounding.)
* External processes (`git`, `find`, `grep`, `gh`) are collaborators: a call
  either returns its full output or fails; `try/catch` wrappers around them
  become `Option.getD` / `match` on an `Option` result.
-/

/-- ASCII whitespace as stripped by `String.prototype.trim` on the tool's
inputs (git/find/grep output is ASCII-framed). -/
def isWs (c : Char) : Bool := c = ' ' || c = '\t' || c = '\n' || c = '\r'

/-- Strip leading and trailing whitespace from a character list. -/
def trimChars (l : List Char) : List Char :=
  ((l.dropWhile isWs).reverse.dropWhile isWs).reverse

/-- Embedding of `s.trim()`. -/
def strTrim (s : String) : String := String.mk (trimChars s.data)

/-- Embedding of `s.toLowerCase()` (ASCII; the patterns involved are ASCII). -/
def strLower (s : String) : String := String.mk (s.data.map Char.toLower)

/-- Split a character list at every occurrence of `sep`
(embedding of `String.prototype.split` with a one-character separator). -/
def splitOnChar (sep : Char) : List Char → List (List Char)
  | [] => [[]]
  | c :: t =>
    if c = sep then [] :: splitOnChar sep t
    else
      match splitOnChar sep t with
      | [] => [[c]]
      | h :: r => (c :: h) :: r

/-- Embedding of `s.split(sep)` for a one-character separator. -/
def splitStr (sep : Char) (s : String) : List String :=
  (splitOnChar sep s.data).map String.mk

/-- Substring occurrence test on character lists. -/
def listHasSub : List Char → List Char → Bool
  | [], pat => pat.isEmpty
  | c :: t, pat => pat.isPrefixOf (c :: t) || listHasSub t pat

/-- Embedding of `s.includes(pat)` (case-sensitive substring containment). -/
def containsStr (s pat : String) : Bool := listHasSub s.data pat.data

/-- Embedding of `s.endsWith(suffix)`. -/
def strEndsWith (s suffix : String) : Bool := suffix.data.isSuffixOf s.data

/-- Embedding of `s.startsWith(p)`. -/
def strStartsWith (s p : String) : Bool := p.data.isPrefixOf s.data

/-- Last element of a list of character lists (with `[]` default); the split
of a string is never empty, so the default is never used on our inputs. -/
def lastD (l : List (List Char)) : List Char := l.foldl (fun _ x => x) []

/-- Embedding of `path.basename(p)` for slash-separated relative paths as
they occur in git/find output (no trailing-slash normalization is needed for
those inputs). -/
def basenameStr (p : String) : String := String.mk (lastD (splitOnChar '/' p.data))

/-- Embedding of `path.extname(p)`: the final-dot suffix of the basename,
empty when the basename has no dot or only a leading dot. -/
def extnameStr (p : String) : String :=
  match splitOnChar '.' (basenameStr p).data with
  | [] => ""
  | [_] => ""
  | [[], _] => ""
  | parts => String.mk ('.' :: lastD parts)

/-- Embedding of `path.basename(p, path.extname(p))`: the basename with its
extension suffix removed. -/
def stripExtStr (p : String) : String :=
  let b := basenameStr p
  let e := extnameStr p
  if e.data.length > 0 && e.data.isSuffixOf b.data then
    String.mk (b.data.take (b.data.length - e.data.length))
  else b

/-- Embedding of the kebab-case transformation
`name.replace(..., dash before each uppercase letter).toLowerCase()` followed
by the removal of a single leading dash. -/
def kebabOf (s : String) : String :=
  let dashed := s.data.foldr
    (fun c acc => if c.isUpper then '-' :: c.toLower :: acc else c.toLower :: acc) []
  match dashed with
  | '-' :: rest => String.mk rest
  | l => String.mk l

/-- Embedding of `m[k] = (m[k] || 0) + 1` on an insertion-ordered object:
the key keeps its first-insertion position, a new key is appended. -/
def bumpCount (k : String) : List (String × Nat) → List (String × Nat)
  | [] => [(k, 1)]
  | (k', n) :: t => if k' = k then (k', n + 1) :: t else (k', n) :: bumpCount k t

/-- Count stored for key `k` (`0` when absent), i.e. `m[k] || 0`. -/
def lookupCount (m : List (String × Nat)) (k : String) : Nat :=
  match m.find? (fun p => p.1 == k) with
  | some p => p.2
  | none => 0

/-- Stable insertion into a list sorted by descending count: the new entry
goes before the first entry of smaller-or-equal count... -/
def insertByCountDesc (x : String × Nat) : List (String × Nat) → List (String × Nat)
  | [] => [x]
  | y :: t => if y.2 ≤ x.2 then x :: y :: t else y :: insertByCountDesc x t

/-- Embedding of `Object.entries(m).sort((a, b) => b[1] - a[1])`:
a stable sort by descending count. -/
def sortByCountDesc : List (String × Nat) → List (String × Nat)
  | [] => []
  | x :: t => insertByCountDesc x (sortByCountDesc t)

/-- Embedding of `Math.round(a / b)` for nonnegative integers, `b > 0`:
`⌊a / b + 1/2⌋ = (2 * a + b) / (2 * b)` in natural division. -/
def jsRoundFrac (a b : Nat) : Nat := (2 * a + b) / (2 * b)

/-- Lines of a process output after `split('\n').filter(l => l.trim())`. -/
def splitLines (s : String) : List String :=
  (splitStr '\n' s).filter (fun l => strTrim l ≠ "")

-- A few sanity checks of the string embedding on concrete values.
example : basenameStr "src/lib/a.vue" = "a.vue" := by decide
example : extnameStr "src/lib/a.test.vue" = ".vue" := by decide
example : extnameStr "src/.env" = "" := by decide
example : stripExtStr "components/FooBar.vue" = "FooBar" := by decide
example : kebabOf "FooBar" = "foo-bar" := by decide
example : kebabOf "foo" = "foo" := by decide
example : containsStr "hello world" "lo w" = true := by decide
example : containsStr "" "x" = false := by decide
example : splitLines "" = [] := by decide
example : splitLines "a\n\n b \n" = ["a", " b "] := by decide
example : strTrim "  a b\t" = "a b" := by decide

/-! ## Churn ranker (FILE CHURN section of the analyzer) -/

/-- One ranked churn record: rendered basename, original path, count. -/
structure FileChurnRecord where
  file : String
  fullPath : String
  changes : Nat
deriving DecidableEq, Repr

/-- The allow-list filter applied to each modified-file token:
`file.trim() && (file.endsWith('.js') || ... || file.endsWith('.java'))`. -/
def churnFilter (f : String) : Bool :=
  strTrim f ≠ "" &&
    (strEndsWith f ".js" || strEndsWith f ".ts" || strEndsWith f ".tsx" ||
     strEndsWith f ".vue" || strEndsWith f ".py" || strEndsWith f ".go" ||
     strEndsWith f ".rs" || strEndsWith f ".java")

/-- One forEach step of the churn accumulation. -/
def churnStep (m : List (String × Nat)) (f : String) : List (String × Nat) :=
  if churnFilter f then bumpCount f m else m

/-- Embedding of `fileChurnMap` built over the modified-file tokens. -/
def fileChurnMapOf (files : List String) : List (String × Nat) :=
  files.foldl churnStep []

/-- Embedding of `topFiles`: sort the map entries by descending count
(stable), truncate to 15, and render basename plus full path. -/
def topFilesOf (files : List String) : List FileChurnRecord :=
  ((sortByCountDesc (fileChurnMapOf files)).take 15).map
    (fun p => ⟨basenameStr p.1, p.1, p.2⟩)

/-- Boolean membership in a list of keys. -/
def keyMem (k : String) (l : List String) : Bool := l.any (fun x => x == k)

/-- First occurrences, in encounter order, of the allow-listed paths of the
input (spec-side description of the key order the churn map produces). -/
def firstEncounterKeys (seen : List String) : List String → List String
  | [] => []
  | f :: t =>
    if churnFilter f && !(keyMem f seen) then f :: firstEncounterKeys (f :: seen) t
    else firstEncounterKeys seen t

/-- Keys of an association map, in stored order. -/
def keysOf (m : List (String × Nat)) : List String := m.map (fun p => p.1)

theorem lookupCount_nil (k : String) : lookupCount [] k = 0 := rfl

theorem lookupCount_cons (p : String × Nat) (t : List (String × Nat)) (k : String) :
    lookupCount (p :: t) k = if p.1 = k then p.2 else lookupCount t k := by
  by_cases h : p.1 = k
  · simp [lookupCount, List.find?, beq_iff_eq, h]
  · have hb : (p.1 == k) = false := beq_eq_false_iff_ne.mpr h
    simp [lookupCount, List.find?, hb, h]

theorem lookupCount_bumpCount (k k' : String) (m : List (String × Nat)) :
    lookupCount (bumpCount k m) k' = lookupCount m k' + (if k' = k then 1 else 0) := by
  induction m with
  | nil =>
    simp only [bumpCount, lookupCount_cons, lookupCount_nil]
    by_cases h : k = k'
    · subst h; simp
    · have h' : ¬ k' = k := fun hh => h hh.symm
      simp [h, h']
  | cons p t ih =>
    obtain ⟨a, n⟩ := p
    by_cases hak : a = k
    · subst hak
      have hb : bumpCount a ((a, n) :: t) = (a, n + 1) :: t := by simp [bumpCount]
      rw [hb, lookupCount_cons, lookupCount_cons]
      by_cases h : a = k'
      · subst h; simp
      · have h' : ¬ k' = a := fun hh => h hh.symm
        simp [h, h']
    · simp only [bumpCount, if_neg hak, lookupCount_cons, ih]
      by_cases h : a = k'
      · subst h
        simp [hak]
      · simp [h]

theorem lookupCount_churnStep (m : List (String × Nat)) (f k : String) :
    lookupCount (churnStep m f) k =
      lookupCount m k + (if churnFilter f && (f == k) then 1 else 0) := by
  unfold churnStep
  by_cases hf : churnFilter f
  · rw [if_pos hf, lookupCount_bumpCount]
    by_cases hk : k = f
    · subst hk; simp [hf]
    · have : (f == k) = false := by
        simp [beq_iff_eq]; intro h; exact absurd h.symm hk
      simp [hk, this]
  · simp [hf]

theorem lookupCount_foldl_churnStep (files : List String) :
    ∀ m k, lookupCount (files.foldl churnStep m) k =
      lookupCount m k + ((files.filter (fun f => churnFilter f && (f == k))).length) := by
  induction files with
  | nil => intro m k; simp
  | cons f t ih =>
    intro m k
    simp only [List.foldl_cons, ih, lookupCount_churnStep, List.filter_cons]
    by_cases h : churnFilter f && (f == k) <;> (simp [h]; try omega)

/-- The churn map counts exactly one per occurrence of each allow-listed
path token. -/
theorem lookupCount_fileChurnMapOf (files : List String) (k : String) :
    lookupCount (fileChurnMapOf files) k =
      (files.filter (fun f => churnFilter f && (f == k))).length := by
  have h := lookupCount_foldl_churnStep files [] k
  rw [fileChurnMapOf, h, lookupCount_nil, Nat.zero_add]

theorem insertByCountDesc_perm (x : String × Nat) (l : List (String × Nat)) :
    (insertByCountDesc x l).Perm (x :: l) := by
  induction l with
  | nil => simp [insertByCountDesc]
  | cons y t ih =>
    by_cases h : y.2 ≤ x.2
    · simp [insertByCountDesc, h]
    · simp only [insertByCountDesc, if_neg h]
      exact (ih.cons y).trans (List.Perm.swap x y t)

theorem sortByCountDesc_perm (l : List (String × Nat)) :
    (sortByCountDesc l).Perm l := by
  induction l with
  | nil => simp [sortByCountDesc]
  | cons x t ih =>
    exact (insertByCountDesc_perm x (sortByCountDesc t)).trans (ih.cons x)

theorem insertByCountDesc_pairwise (x : String × Nat) (l : List (String × Nat))
    (hl : l.Pairwise (fun a b => b.2 ≤ a.2)) :
    (insertByCountDesc x l).Pairwise (fun a b => b.2 ≤ a.2) := by
  induction l with
  | nil => simp [insertByCountDesc]
  | cons y t ih =>
    rcases List.pairwise_cons.mp hl with ⟨hy, ht⟩
    by_cases h : y.2 ≤ x.2
    · simp only [insertByCountDesc, if_pos h]
      refine List.pairwise_cons.mpr ⟨?_, hl⟩
      intro z hz
      rcases List.mem_cons.mp hz with hz | hz
      · subst hz; exact h
      · exact le_trans (hy z hz) h
    · simp only [insertByCountDesc, if_neg h]
      refine List.pairwise_cons.mpr ⟨?_, ih ht⟩
      intro z hz
      have hz' := (insertByCountDesc_perm x t).mem_iff.mp hz
      rcases List.mem_cons.mp hz' with hz' | hz'
      · subst hz'; omega
      · exact hy z hz'

theorem sortByCountDesc_pairwise (l : List (String × Nat)) :
    (sortByCountDesc l).Pairwise (fun a b => b.2 ≤ a.2) := by
  induction l with
  | nil => simp [sortByCountDesc]
  | cons x t ih => exact insertByCountDesc_pairwise x (sortByCountDesc t) ih

theorem filter_insertByCountDesc_eq (x : String × Nat) (l : List (String × Nat))
    (c : Nat) (hx : x.2 = c) :
    (insertByCountDesc x l).filter (fun p => p.2 == c) =
      x :: l.filter (fun p => p.2 == c) := by
  have hxb : (x.2 == c) = true := beq_iff_eq.mpr hx
  induction l with
  | nil => simp [insertByCountDesc, List.filter_cons, hxb]
  | cons y t ih =>
    by_cases h : y.2 ≤ x.2
    · simp [insertByCountDesc, h, List.filter_cons, hxb]
    · have hy : (y.2 == c) = false := by
        refine beq_eq_false_iff_ne.mpr ?_
        omega
      simp [insertByCountDesc, h, List.filter_cons, hy, ih]

theorem filter_insertByCountDesc_ne (x : String × Nat) (l : List (String × Nat))
    (c : Nat) (hx : x.2 ≠ c) :
    (insertByCountDesc x l).filter (fun p => p.2 == c) =
      l.filter (fun p => p.2 == c) := by
  have hxb : (x.2 == c) = false := beq_eq_false_iff_ne.mpr hx
  induction l with
  | nil => simp [insertByCountDesc, List.filter_cons, hxb]
  | cons y t ih =>
    by_cases h : y.2 ≤ x.2
    · simp [insertByCountDesc, h, List.filter_cons, hxb]
    · simp [insertByCountDesc, h, List.filter_cons, ih]

/-- Stability of the embedded sort: entries of any fixed count appear in the
sorted output exactly in their original (first-encounter) order. -/
theorem sortByCountDesc_filter_eq (l : List (String × Nat)) (c : Nat) :
    (sortByCountDesc l).filter (fun p => p.2 == c) =
      l.filter (fun p => p.2 == c) := by
  induction l with
  | nil => simp [sortByCountDesc]
  | cons x t ih =>
    by_cases hx : x.2 = c
    · rw [sortByCountDesc, filter_insertByCountDesc_eq x _ c hx, ih]
      have hxb : (x.2 == c) = true := beq_iff_eq.mpr hx
      simp [List.filter_cons, hxb]
    · rw [sortByCountDesc, filter_insertByCountDesc_ne x _ c hx, ih]
      have hxb : (x.2 == c) = false := beq_eq_false_iff_ne.mpr hx
      simp [List.filter_cons, hxb]

theorem keysOf_cons (p : String × Nat) (t : List (String × Nat)) :
    keysOf (p :: t) = p.1 :: keysOf t := rfl

theorem keyMem_cons (k a : String) (l : List String) :
    keyMem k (a :: l) = ((a == k) || keyMem k l) := by
  simp [keyMem, List.any_cons]

theorem keysOf_bumpCount_mem (k : String) (m : List (String × Nat))
    (h : keyMem k (keysOf m) = true) : keysOf (bumpCount k m) = keysOf m := by
  induction m with
  | nil => simp [keyMem, keysOf] at h
  | cons p t ih =>
    obtain ⟨a, n⟩ := p
    by_cases hak : a = k
    · simp [bumpCount, hak, keysOf]
    · have hb : bumpCount k ((a, n) :: t) = (a, n) :: bumpCount k t := by
        simp [bumpCount, hak]
      have h' : keyMem k (keysOf t) = true := by
        rw [keysOf_cons, keyMem_cons] at h
        rcases Bool.or_eq_true_iff.mp h with h | h
        · exact absurd (beq_iff_eq.mp h) hak
        · exact h
      rw [hb, keysOf_cons, keysOf_cons, ih h']

theorem keysOf_bumpCount_notMem (k : String) (m : List (String × Nat))
    (h : keyMem k (keysOf m) = false) : keysOf (bumpCount k m) = keysOf m ++ [k] := by
  induction m with
  | nil => simp [bumpCount, keysOf]
  | cons p t ih =>
    obtain ⟨a, n⟩ := p
    rw [keysOf_cons, keyMem_cons, Bool.or_eq_false_iff] at h
    obtain ⟨h1, h2⟩ := h
    have hak : ¬ a = k := by
      intro hh
      rw [hh] at h1
      simp at h1
    have hb : bumpCount k ((a, n) :: t) = (a, n) :: bumpCount k t := by
      simp [bumpCount, hak]
    rw [hb, keysOf_cons, keysOf_cons, ih h2]
    rfl

theorem firstEncounterKeys_congr (t : List String) :
    ∀ s₁ s₂ : List String, (∀ x, keyMem x s₁ = keyMem x s₂) →
      firstEncounterKeys s₁ t = firstEncounterKeys s₂ t := by
  induction t with
  | nil => intro s₁ s₂ _; rfl
  | cons f t ih =>
    intro s₁ s₂ h
    have hm : keyMem f s₁ = keyMem f s₂ := h f
    by_cases hc : (churnFilter f && !(keyMem f s₁)) = true
    · have hc₂ : (churnFilter f && !(keyMem f s₂)) = true := by
        rw [← hm]; exact hc
      rw [firstEncounterKeys, firstEncounterKeys, if_pos hc, if_pos hc₂]
      have hss : ∀ x, keyMem x (f :: s₁) = keyMem x (f :: s₂) := by
        intro x
        rw [keyMem_cons, keyMem_cons, h x]
      rw [ih _ _ hss]
    · have hc₂ : ¬ (churnFilter f && !(keyMem f s₂)) = true := by
        rw [← hm]; exact hc
      rw [firstEncounterKeys, firstEncounterKeys, if_neg hc, if_neg hc₂]
      exact ih _ _ h

theorem keysOf_foldl_churnStep (files : List String) :
    ∀ m, keysOf (files.foldl churnStep m) =
      keysOf m ++ firstEncounterKeys (keysOf m) files := by
  induction files with
  | nil => intro m; simp [firstEncounterKeys]
  | cons f t ih =>
    intro m
    rw [List.foldl_cons]
    cases hf : churnFilter f with
    | false =>
      have hstep : churnStep m f = m := by simp [churnStep, hf]
      rw [hstep, ih, firstEncounterKeys]
      rw [if_neg (by simp [hf])]
    | true =>
      have hstep : churnStep m f = bumpCount f m := by simp [churnStep, hf]
      cases hc : keyMem f (keysOf m) with
      | true =>
        rw [hstep, ih, keysOf_bumpCount_mem f m hc, firstEncounterKeys]
        rw [if_neg (by simp [hf, hc])]
      | false =>
        rw [hstep, ih, keysOf_bumpCount_notMem f m hc, firstEncounterKeys]
        rw [if_pos (by simp [hf, hc])]
        have hcongr : firstEncounterKeys (keysOf m ++ [f]) t =
            firstEncounterKeys (f :: keysOf m) t := by
          refine firstEncounterKeys_congr t _ _ ?_
          intro x
          rw [keyMem_cons]
          simp [keyMem, List.any_append, Bool.or_comm]
        rw [hcongr, List.append_assoc]
        rfl

/-- The churn map lists each allow-listed path once, at the position of its
first encounter in the input. -/
theorem keysOf_fileChurnMapOf (files : List String) :
    keysOf (fileChurnMapOf files) = firstEncounterKeys [] files := by
  have h := keysOf_foldl_churnStep files []
  simpa [fileChurnMapOf, keysOf] using h

/-- C3: for every sequence of modified-file path tokens, the churn ranker
counts one per occurrence of each allow-listed path (`.js .ts .tsx .vue .py
.go .rs .java`); the entries are sorted by descending count with tied counts
kept in first-encountered order (stability is stated as: the sorted list
restricted to any fixed count equals the accumulation-order list so
restricted, and the accumulation order lists each allow-listed path at its
first encounter); the output is truncated to at most 15 records, each record
carrying the path's basename plus the original full path; and the event
sequence `a.js, b.js, a.js` yields `[{a.js, 2}, {b.js, 1}]`. -/
theorem churnRanking_spec (files : List String) :
    (∀ k : String, lookupCount (fileChurnMapOf files) k =
        (files.filter (fun f => churnFilter f && (f == k))).length) ∧
    List.Pairwise (fun a b => b.2 ≤ a.2) (sortByCountDesc (fileChurnMapOf files)) ∧
    (∀ c : Nat, (sortByCountDesc (fileChurnMapOf files)).filter (fun p => p.2 == c) =
        (fileChurnMapOf files).filter (fun p => p.2 == c)) ∧
    keysOf (fileChurnMapOf files) = firstEncounterKeys [] files ∧
    (topFilesOf files).length ≤ 15 ∧
    List.Pairwise (fun a b => b.changes ≤ a.changes) (topFilesOf files) ∧
    (∀ r ∈ topFilesOf files, r.file = basenameStr r.fullPath) ∧
    topFilesOf ["a.js", "b.js", "a.js"] =
      [⟨"a.js", "a.js", 2⟩, ⟨"b.js", "b.js", 1⟩] := by
  refine ⟨fun k => lookupCount_fileChurnMapOf files k,
          sortByCountDesc_pairwise _,
          fun c => sortByCountDesc_filter_eq _ c,
          keysOf_fileChurnMapOf files, ?_, ?_, ?_, by decide⟩
  · rw [topFilesOf, List.length_map]
    exact List.length_take_le 15 _
  · rw [topFilesOf, List.pairwise_map]
    exact List.Pairwise.take (sortByCountDesc_pairwise _)
  · intro r hr
    rw [topFilesOf] at hr
    rcases List.mem_map.mp hr with ⟨p, _, hp⟩
    rw [← hp]

/-- Witness for C3: the ranker applied to the concrete event sequence
`a.js, b.js, a.js`; the first record carries the basename of its path. -/
theorem churnRanking_spec_witness :
    (FileChurnRecord.mk "a.js" "a.js" 2).file = basenameStr "a.js" :=
  (churnRanking_spec ["a.js", "b.js", "a.js"]).2.2.2.2.2.2.1
    ⟨"a.js", "a.js", 2⟩ (by decide)

/-! ## Contributor aggregator (CONTRIBUTORS section of the analyzer) -/

/-- The seven radar categories, with one commit/file hit counter each
(`categoryBreakdown` of the analyzer, insertion order
frontend, backend, database, auth, devops, testing, docs). -/
structure CategoryBreakdown where
  frontend : Nat
  backend : Nat
  database : Nat
  auth : Nat
  devops : Nat
  testing : Nat
  docs : Nat
deriving DecidableEq, Repr

/-- The all-zero initial breakdown. -/
def zeroCB : CategoryBreakdown := ⟨0, 0, 0, 0, 0, 0, 0⟩

/-- Sum of the seven counters. -/
def sumCB (cb : CategoryBreakdown) : Nat :=
  cb.frontend + cb.backend + cb.database + cb.auth + cb.devops + cb.testing + cb.docs

/-- Per-category increments derived from one lowercased commit-message line
against the `commitCategories` pattern sets (a line can hit several
categories, one increment per category). -/
def msgBump (msg : String) (cb : CategoryBreakdown) : CategoryBreakdown :=
  let hit := fun (pats : List String) =>
    if pats.any (fun p => containsStr msg p) then 1 else 0
  { frontend := cb.frontend +
      hit ["component", "ui", "style", "css", "layout", "modal", "button", "form", "page"],
    backend := cb.backend +
      hit ["api", "server", "handler", "controller", "route", "endpoint", "service"],
    database := cb.database +
      hit ["database", "db", "schema", "model", "migration", "query", "prisma"],
    auth := cb.auth +
      hit ["auth", "login", "signup", "session", "jwt", "oauth", "password", "security"],
    devops := cb.devops +
      hit ["ci", "cd", "docker", "deploy", "build", "workflow", "pipeline", "config"],
    testing := cb.testing +
      hit ["test", "spec", "jest", "vitest", "cypress", "e2e"],
    docs := cb.docs +
      hit ["doc", "readme", "changelog", "comment", "md"] }

/-- Frontend framework/style extensions used both for per-file category
attribution and for the focus label. -/
def frontendExts : List String := [".vue", ".tsx", ".jsx", ".svelte", ".css", ".scss"]

/-- Per-category increments derived from one lowercased file path and its
extension (independent if-tests, so one file can hit several categories). -/
def fileBump (file ext : String) (cb : CategoryBreakdown) : CategoryBreakdown :=
  let b := fun (cond : Bool) => if cond then 1 else 0
  { frontend := cb.frontend + b (containsStr file "component" || containsStr file "/ui/" ||
      frontendExts.contains ext),
    backend := cb.backend + b (containsStr file "/api/" || containsStr file "server" ||
      containsStr file "handler"),
    database := cb.database + b (containsStr file "schema" || containsStr file "model" ||
      containsStr file "migration" || containsStr file "prisma"),
    auth := cb.auth + b (containsStr file "auth" || containsStr file "login" ||
      containsStr file "security"),
    devops := cb.devops + b (containsStr file "docker" || containsStr file "ci" ||
      containsStr file "workflow" || ext = ".yml" || ext = ".yaml"),
    testing := cb.testing + b (containsStr file "test" || containsStr file "spec" ||
      containsStr file ".test." || containsStr file ".spec."),
    docs := cb.docs + b (ext = ".md" || ext = ".mdx" || ext = ".txt" ||
      containsStr file "readme" || containsStr file "doc") }

/-- Per-contributor accumulation state: extension touch counts, directory
touch counts, and the category breakdown. -/
structure ContributorStats where
  filesTouched : List (String × Nat)
  areasTouched : List (String × Nat)
  categoryBreakdown : CategoryBreakdown
deriving DecidableEq, Repr

/-- Initial (all-empty) accumulation state. -/
def initStats : ContributorStats := ⟨[], [], zeroCB⟩

/-- A commit-header line, per the regex `^[a-f0-9]+\s` (one or more lowercase
hex digits followed by a whitespace character). -/
def isCommitLine (line : String) : Bool :=
  let hex := line.data.takeWhile (fun c => c.isDigit || ('a' ≤ c && c ≤ 'f'))
  match line.data.drop hex.length with
  | c :: _ => !hex.isEmpty && isWs c
  | [] => false

/-- Generic directory-segment stoplist of the expertise-area tracker. -/
def areaStop : List String := ["src", "app", "lib", "."]

/-- Embedding of the expertise-area step: split the (original-case) line on
slashes and bump the first segment that is not stoplisted and has length
above 1. -/
def areaBump (line : String) (m : List (String × Nat)) : List (String × Nat) :=
  let parts := splitStr '/' line
  if parts.length > 1 then
    match parts.find? (fun p => !(areaStop.contains p) && p.length > 1) with
    | some area => bumpCount area m
    | none => m
  else m

/-- One forEach step over a `git log --oneline --name-only` line. -/
def processLine (st : ContributorStats) (line : String) : ContributorStats :=
  if isCommitLine line then
    { st with categoryBreakdown := msgBump (strLower line) st.categoryBreakdown }
  else
    let file := strLower line
    let ext := strLower (extnameStr file)
    { filesTouched := if ext ≠ "" then bumpCount ext st.filesTouched else st.filesTouched,
      areasTouched := areaBump line st.areasTouched,
      categoryBreakdown := fileBump file ext st.categoryBreakdown }

/-- Backend language extensions of the focus chain. -/
def backendExts : List String := [".py", ".go", ".rs", ".java"]

/-- Embedding of the focus derivation: the head of the stable descending
sort of the extension touch counts selects the label through the if-chain of
the analyzer; a top ambiguous `.ts`/`.js` extension gives `frontend` when
`.vue` or `.tsx` was also touched and `fullstack` otherwise. -/
def focusOf (filesTouched : List (String × Nat)) : String :=
  match sortByCountDesc filesTouched with
  | [] => "general"
  | (topExt, _) :: _ =>
    if frontendExts.contains topExt then "frontend"
    else if backendExts.contains topExt then "backend"
    else if topExt = ".ts" || topExt = ".js" then
      (if lookupCount filesTouched ".vue" > 0 || lookupCount filesTouched ".tsx" > 0 then
        "frontend" else "fullstack")
    else if topExt = ".md" || topExt = ".mdx" || topExt = ".txt" then "docs"
    else if topExt = ".yml" || topExt = ".yaml" || topExt = ".json" then "config/devops"
    else "general"

/-- Embedding of `totalCatHits = sum || 1` (the radar denominator). -/
def totalCatHits (cb : CategoryBreakdown) : Nat :=
  if sumCB cb = 0 then 1 else sumCB cb

/-- Embedding of the radar normalization
`radarData[cat] = Math.round(categoryBreakdown[cat] / totalCatHits * 100)`. -/
def radarOf (cb : CategoryBreakdown) : CategoryBreakdown :=
  ⟨jsRoundFrac (cb.frontend * 100) (totalCatHits cb),
   jsRoundFrac (cb.backend * 100) (totalCatHits cb),
   jsRoundFrac (cb.database * 100) (totalCatHits cb),
   jsRoundFrac (cb.auth * 100) (totalCatHits cb),
   jsRoundFrac (cb.devops * 100) (totalCatHits cb),
   jsRoundFrac (cb.testing * 100) (totalCatHits cb),
   jsRoundFrac (cb.docs * 100) (totalCatHits cb)⟩

/-- One parsed shortlog entry (commit count and author name). -/
structure RawContributor where
  commits : Nat
  name : String
deriving DecidableEq, Repr

/-- One analyzed contributor as emitted in the report. -/
structure Contributor where
  name : String
  commits : Nat
  focus : String
  topAreas : List String
  expertise : String
  categoryBreakdown : CategoryBreakdown
  radarData : CategoryBreakdown
deriving DecidableEq, Repr

/-- Embedding of the per-contributor analysis over the (possibly empty)
output of that contributor's `git log --oneline --name-only` query. -/
def analyzeContributor (rc : RawContributor) (logOut : String) : Contributor :=
  let st := (splitLines logOut).foldl processLine initStats
  let topAreas3 := ((sortByCountDesc st.areasTouched).take 3).map (fun p => p.1)
  { name := rc.name,
    commits := rc.commits,
    focus := focusOf st.filesTouched,
    topAreas := topAreas3.take 2,
    expertise := topAreas3.headD (focusOf st.filesTouched),
    categoryBreakdown := st.categoryBreakdown,
    radarData := radarOf st.categoryBreakdown }

-- Sanity checks of the contributor embedding.
example : isCommitLine "ab12f fix login form" = true := by decide
example : isCommitLine "src/components/Login.vue" = false := by decide
example : (analyzeContributor ⟨2, "a"⟩ "ab1 fix css\nsrc/components/Login.vue").focus
    = "frontend" := by decide
example : focusOf [(".ts", 2), (".vue", 1)] = "frontend" := by decide
example : focusOf [(".ts", 2)] = "fullstack" := by decide
example : focusOf [(".json", 2), (".ts", 1)] = "config/devops" := by decide

/-- Sum of the seven radar percentages. -/
def radarSum (r : CategoryBreakdown) : Nat :=
  r.frontend + r.backend + r.database + r.auth + r.devops + r.testing + r.docs

theorem jsRoundFrac_bounds (a T : Nat) (hT : 0 < T) :
    2 * T * jsRoundFrac a T ≤ 2 * a + T ∧
      2 * a + T < 2 * T * jsRoundFrac a T + 2 * T := by
  have hpos : 0 < 2 * T := by omega
  have hdm : 2 * T * ((2 * a + T) / (2 * T)) + (2 * a + T) % (2 * T) = 2 * a + T :=
    Nat.div_add_mod (2 * a + T) (2 * T)
  have hlt : (2 * a + T) % (2 * T) < 2 * T := Nat.mod_lt _ hpos
  unfold jsRoundFrac
  generalize hx : 2 * T * ((2 * a + T) / (2 * T)) = x at hdm ⊢
  generalize hr : (2 * a + T) % (2 * T) = r at hdm hlt
  omega

/-- C7: for every contributor category breakdown with a non-zero total, the
sum of the seven rounded radar percentages lies between 100 - 7 and
100 + 7. -/
theorem radarSum_spec (cb : CategoryBreakdown) (h : 0 < sumCB cb) :
    100 - 7 ≤ radarSum (radarOf cb) ∧ radarSum (radarOf cb) ≤ 100 + 7 := by
  obtain ⟨c1, c2, c3, c4, c5, c6, c7⟩ := cb
  simp only [sumCB] at h
  have hne : ¬ (c1 + c2 + c3 + c4 + c5 + c6 + c7 = 0) := by omega
  have hth : totalCatHits ⟨c1, c2, c3, c4, c5, c6, c7⟩ =
      c1 + c2 + c3 + c4 + c5 + c6 + c7 := by
    simp only [totalCatHits, sumCB, if_neg hne]
  simp only [radarOf, radarSum, hth]
  set T := c1 + c2 + c3 + c4 + c5 + c6 + c7 with hT
  have b1 := jsRoundFrac_bounds (c1 * 100) T h
  have b2 := jsRoundFrac_bounds (c2 * 100) T h
  have b3 := jsRoundFrac_bounds (c3 * 100) T h
  have b4 := jsRoundFrac_bounds (c4 * 100) T h
  have b5 := jsRoundFrac_bounds (c5 * 100) T h
  have b6 := jsRoundFrac_bounds (c6 * 100) T h
  have b7 := jsRoundFrac_bounds (c7 * 100) T h
  set d1 := jsRoundFrac (c1 * 100) T
  set d2 := jsRoundFrac (c2 * 100) T
  set d3 := jsRoundFrac (c3 * 100) T
  set d4 := jsRoundFrac (c4 * 100) T
  set d5 := jsRoundFrac (c5 * 100) T
  set d6 := jsRoundFrac (c6 * 100) T
  set d7 := jsRoundFrac (c7 * 100) T
  have hup : 2 * T * (d1 + d2 + d3 + d4 + d5 + d6 + d7) ≤ 207 * T := by
    have e : 2 * T * (d1 + d2 + d3 + d4 + d5 + d6 + d7) =
        2 * T * d1 + 2 * T * d2 + 2 * T * d3 + 2 * T * d4 +
        2 * T * d5 + 2 * T * d6 + 2 * T * d7 := by ring
    have e2 : (2 * (c1 * 100) + T) + (2 * (c2 * 100) + T) + (2 * (c3 * 100) + T) +
        (2 * (c4 * 100) + T) + (2 * (c5 * 100) + T) + (2 * (c6 * 100) + T) +
        (2 * (c7 * 100) + T) = 207 * T := by
      rw [hT]; ring
    rw [e, ← e2]
    have := b1.1; have := b2.1; have := b3.1; have := b4.1
    have := b5.1; have := b6.1; have := b7.1
    omega
  have hlo : 207 * T < 2 * T * (d1 + d2 + d3 + d4 + d5 + d6 + d7) + 14 * T := by
    have e : 2 * T * (d1 + d2 + d3 + d4 + d5 + d6 + d7) + 14 * T =
        (2 * T * d1 + 2 * T) + (2 * T * d2 + 2 * T) + (2 * T * d3 + 2 * T) +
        (2 * T * d4 + 2 * T) + (2 * T * d5 + 2 * T) + (2 * T * d6 + 2 * T) +
        (2 * T * d7 + 2 * T) := by ring
    have e2 : (2 * (c1 * 100) + T) + (2 * (c2 * 100) + T) + (2 * (c3 * 100) + T) +
        (2 * (c4 * 100) + T) + (2 * (c5 * 100) + T) + (2 * (c6 * 100) + T) +
        (2 * (c7 * 100) + T) = 207 * T := by
      rw [hT]; ring
    rw [e, ← e2]
    have := b1.2; have := b2.2; have := b3.2; have := b4.2
    have := b5.2; have := b6.2; have := b7.2
    omega
  have hup' : 2 * (d1 + d2 + d3 + d4 + d5 + d6 + d7) ≤ 207 := by
    have h1 : T * (2 * (d1 + d2 + d3 + d4 + d5 + d6 + d7)) ≤ T * 207 := by
      calc T * (2 * (d1 + d2 + d3 + d4 + d5 + d6 + d7))
          = 2 * T * (d1 + d2 + d3 + d4 + d5 + d6 + d7) := by ring
        _ ≤ 207 * T := hup
        _ = T * 207 := by ring
    exact Nat.le_of_mul_le_mul_left h1 h
  have hlo' : 207 < 2 * (d1 + d2 + d3 + d4 + d5 + d6 + d7) + 14 := by
    have h1 : T * 207 < T * (2 * (d1 + d2 + d3 + d4 + d5 + d6 + d7) + 14) := by
      calc T * 207 = 207 * T := by ring
        _ < 2 * T * (d1 + d2 + d3 + d4 + d5 + d6 + d7) + 14 * T := hlo
        _ = T * (2 * (d1 + d2 + d3 + d4 + d5 + d6 + d7) + 14) := by ring
    exact Nat.lt_of_mul_lt_mul_left h1
  omega

/-- Witness for C7 at the concrete breakdown (1, 1, 1, 0, 0, 0, 0): the
three rounded thirds sum to 99, inside the allowed band. -/
theorem radarSum_spec_witness :
    100 - 7 ≤ radarSum (radarOf ⟨1, 1, 1, 0, 0, 0, 0⟩) ∧
      radarSum (radarOf ⟨1, 1, 1, 0, 0, 0, 0⟩) ≤ 100 + 7 :=
  radarSum_spec ⟨1, 1, 1, 0, 0, 0, 0⟩ (by decide)

/-- C6: a contributor whose history query returns nothing (empty or
unreadable `git log` output, hence no usable lines) gets all seven radar
percentages equal to 0 and the focus label `general`; the analysis is a
total function, so no error can be raised. -/
theorem emptyHistory_spec (rc : RawContributor) (logOut : String)
    (h : splitLines logOut = []) :
    (analyzeContributor rc logOut).radarData = zeroCB ∧
    (analyzeContributor rc logOut).focus = "general" := by
  unfold analyzeContributor
  rw [h]
  exact ⟨rfl, rfl⟩

/-- Witness for C6: the empty git output has no lines, and the analyzed
contributor has the all-zero radar and focus `general`. -/
theorem emptyHistory_spec_witness :
    (analyzeContributor ⟨3, "alice"⟩ "").radarData = zeroCB ∧
    (analyzeContributor ⟨3, "alice"⟩ "").focus = "general" :=
  emptyHistory_spec ⟨3, "alice"⟩ "" (by decide)

/-- C1 (amended): for a contributor's extension touch counts, the focus
label is decided by the head of the stable descending sort (most-touched
extension, ties by first-encountered order): a frontend extension
(`.vue .tsx .jsx .svelte .css .scss`) gives `frontend`; a backend language
extension (`.py .go .rs .java`) gives `backend`; an ambiguous `.ts`/`.js`
extension gives `frontend` when `.vue` or `.tsx` was also touched and
`fullstack` otherwise (not, as the claim stated, `fullstack`/`backend`);
a doc extension gives `docs`; a config extension (`.yml .yaml .json`) gives
the label spelled `config/devops`; any other top extension gives
`general`. -/
theorem focusLabel_spec (ft : List (String × Nat)) (topExt : String) (c : Nat)
    (rest : List (String × Nat))
    (h : sortByCountDesc ft = (topExt, c) :: rest) :
    (topExt ∈ frontendExts → focusOf ft = "frontend") ∧
    (topExt ∈ backendExts → focusOf ft = "backend") ∧
    ((topExt = ".ts" ∨ topExt = ".js") →
      focusOf ft = (if lookupCount ft ".vue" > 0 || lookupCount ft ".tsx" > 0
        then "frontend" else "fullstack")) ∧
    ((topExt = ".md" ∨ topExt = ".mdx" ∨ topExt = ".txt") → focusOf ft = "docs") ∧
    ((topExt = ".yml" ∨ topExt = ".yaml" ∨ topExt = ".json") →
      focusOf ft = "config/devops") ∧
    (topExt ∉ frontendExts → topExt ∉ backendExts →
      topExt ≠ ".ts" → topExt ≠ ".js" → topExt ≠ ".md" → topExt ≠ ".mdx" →
      topExt ≠ ".txt" → topExt ≠ ".yml" → topExt ≠ ".yaml" → topExt ≠ ".json" →
      focusOf ft = "general") := by
  refine ⟨?_, ?_, ?_, ?_, ?_, ?_⟩
  · intro hm
    fin_cases hm <;> simp [focusOf, h, frontendExts, backendExts]
  · intro hm
    fin_cases hm <;> simp [focusOf, h, frontendExts, backendExts]
  · intro hm
    rcases hm with hm | hm <;> (subst hm; simp [focusOf, h, frontendExts, backendExts])
  · intro hm
    rcases hm with hm | hm | hm <;>
      (subst hm; simp [focusOf, h, frontendExts, backendExts])
  · intro hm
    rcases hm with hm | hm | hm <;>
      (subst hm; simp [focusOf, h, frontendExts, backendExts])
  · intro h1 h2 h3 h4 h5 h6 h7 h8 h9 h10
    have hf : frontendExts.contains topExt = false := by simpa using h1
    have hb : backendExts.contains topExt = false := by simpa using h2
    simp [focusOf, h, hf, hb, h1, h2, h3, h4, h5, h6, h7, h8, h9, h10]

/-- Extension touch counts accumulated from a sequence of already extracted
extension tokens, as the per-file loop does. -/
def extTouches (exts : List String) : List (String × Nat) :=
  exts.foldl (fun m e => bumpCount e m) []

/-- Counterexample to C1 as stated: touching `.ts, .ts, .vue` makes the
ambiguous `.ts` the most-touched extension with a frontend framework
extension also present; the claim then requires focus `fullstack`, but the
code yields `frontend`. -/
theorem focusLabel_claim_counterexample :
    focusOf (extTouches [".ts", ".ts", ".vue"]) = "frontend" ∧
    focusOf (extTouches [".ts", ".ts", ".vue"]) ≠ "fullstack" := by decide

/-- Witness for C1 (amended) at a contributor who touched only `.py`: the
sorted extension counts start with `.py` and the focus is `backend`. -/
theorem focusLabel_spec_witness :
    focusOf (extTouches [".py"]) = "backend" :=
  ((focusLabel_spec (extTouches [".py"]) ".py" 1 [] (by decide)).2.1) (by decide)

/-! ## NCOSE compliance scorer (analyzer scan + score in `generateHTML.js`) -/

/-- The seven fixed compliance categories, in declaration order. -/
inductive CKey where
  | ageVerification
  | contentModeration
  | identityVerification
  | reportingMechanism
  | recordKeeping
  | userSafety
  | paymentCompliance
deriving DecidableEq, Repr

/-- The keyword stems each category tests on the lowercased file path, in
code order. -/
def stems : CKey → List String
  | .ageVerification => ["age", "sumsub", "onfido", "birth"]
  | .contentModeration => ["moderat", "nsfw", "safety"]
  | .identityVerification => ["kyc", "identity", "verif"]
  | .reportingMechanism => ["report", "flag", "abuse"]
  | .recordKeeping => ["2257", "record"]
  | .userSafety => ["block", "mute", "2fa", "otp", "security"]
  | .paymentCompliance => ["stripe", "payout", "payment", "chargeback"]

/-- A matched file is attributed to every category one of whose stems occurs
in its lowercased path. -/
def attributes (f : String) (k : CKey) : Bool :=
  (stems k).any (fun s => containsStr (strLower f) s)

/-- `found` flag of a category after scanning the matched-file list: true as
soon as any file is attributed to it. -/
def categoryFound (files : List String) (k : CKey) : Bool :=
  files.any (fun f => attributes f k)

/-- The compliance keys in the order `complianceItems` lists them. -/
def allKeys : List CKey :=
  [.ageVerification, .contentModeration, .identityVerification,
   .reportingMechanism, .recordKeeping, .userSafety, .paymentCompliance]

/-- `passedChecks`: the number of categories found. -/
def foundCount (files : List String) : Nat :=
  (allKeys.filter (fun k => categoryFound files k)).length

/-- Embedding of
`complianceScore = Math.round(passedChecks / totalChecks * 100)`. -/
def complianceScoreOf (files : List String) : Nat :=
  jsRoundFrac (foundCount files * 100) allKeys.length

/-- C2: the compliance score is the rounded percentage of found categories
over the fixed 7-category taxonomy, and scanning a tree whose matched files
hit only the payment stems `stripe`/`payout` marks exactly
`paymentCompliance` as found, leaves the other six categories unfound, and
scores round(100 * 1/7) = 14. -/
theorem complianceScore_spec :
    (∀ files : List String,
      complianceScoreOf files = jsRoundFrac (100 * foundCount files) 7) ∧
    categoryFound ["src/stripe.js", "src/payout.ts"] .paymentCompliance = true ∧
    (∀ k : CKey, k ≠ .paymentCompliance →
      categoryFound ["src/stripe.js", "src/payout.ts"] k = false) ∧
    complianceScoreOf ["src/stripe.js", "src/payout.ts"] = 14 := by
  refine ⟨?_, by decide, ?_, by decide⟩
  · intro files
    rw [complianceScoreOf]
    have : allKeys.length = 7 := by decide
    rw [this, Nat.mul_comm]
  · intro k hk
    cases k <;> first | decide | exact absurd rfl hk

/-- Witness for C2: the non-payment category checks of the scenario, applied
at the concrete category `ageVerification`. -/
theorem complianceScore_spec_witness :
    categoryFound ["src/stripe.js", "src/payout.ts"] .ageVerification = false :=
  complianceScore_spec.2.2.1 .ageVerification (by decide)

theorem categoryFound_append (files : List String) (f : String) (k : CKey) :
    categoryFound (files ++ [f]) k = (categoryFound files k || attributes f k) := by
  simp [categoryFound, List.any_append]

theorem length_filter_or (L : List CKey) (g a : CKey → Bool) :
    (L.filter (fun k => g k || a k)).length =
      (L.filter g).length + (L.filter (fun k => !g k && a k)).length := by
  induction L with
  | nil => rfl
  | cons k t ih =>
    cases hg : g k <;> cases ha : a k <;>
      (simp [List.filter_cons, hg, ha, ih]; try omega)

/-- C8: adding a matched file attributed to one previously-unfound category
(its other attributions, if any, already found) raises the number of found
categories by exactly one and moves the score to the rounded percentage of
the new count; adding a file attributed only to already-found categories
changes no found flag and leaves the score unchanged. -/
theorem complianceMonotone_spec :
    (∀ (files : List String) (f : String) (c : CKey),
      attributes f c = true →
      categoryFound files c = false →
      (∀ k : CKey, k ≠ c → attributes f k = true → categoryFound files k = true) →
      foundCount (files ++ [f]) = foundCount files + 1 ∧
      complianceScoreOf (files ++ [f]) = jsRoundFrac ((foundCount files + 1) * 100) 7) ∧
    (∀ (files : List String) (f : String),
      (∀ k : CKey, attributes f k = true → categoryFound files k = true) →
      (∀ k : CKey, categoryFound (files ++ [f]) k = categoryFound files k) ∧
      complianceScoreOf (files ++ [f]) = complianceScoreOf files) := by
  constructor
  · intro files f c hattr hnew hothers
    have hcount : foundCount (files ++ [f]) = foundCount files + 1 := by
      rw [foundCount, foundCount]
      have hfc : List.filter (fun k => categoryFound (files ++ [f]) k) allKeys =
          List.filter (fun k => categoryFound files k || attributes f k) allKeys :=
        List.filter_congr (fun k _ => categoryFound_append files f k)
      rw [hfc, length_filter_or]
      have hone : List.filter (fun k => !(categoryFound files k) && attributes f k)
          allKeys = List.filter (fun k => k == c) allKeys := by
        refine List.filter_congr ?_
        intro k _
        by_cases hk : k = c
        · subst hk
          rw [hattr, hnew]
          simp
        · have hkc : (k == c) = false := beq_eq_false_iff_ne.mpr hk
          rw [hkc]
          cases ha : attributes f k
          · simp
          · rw [hothers k hk ha]
            simp
      rw [hone]
      have : (List.filter (fun k => k == c) allKeys).length = 1 := by
        cases c <;> decide
      rw [this]
    refine ⟨hcount, ?_⟩
    rw [complianceScoreOf, hcount]
    rfl
  · intro files f hall
    have hflag : ∀ k : CKey, categoryFound (files ++ [f]) k = categoryFound files k := by
      intro k
      rw [categoryFound_append]
      cases ha : attributes f k
      · simp
      · rw [hall k ha]
        simp
    refine ⟨hflag, ?_⟩
    rw [complianceScoreOf, complianceScoreOf]
    have : foundCount (files ++ [f]) = foundCount files := by
      rw [foundCount, foundCount]
      exact congrArg List.length (List.filter_congr (fun k _ => hflag k))
    rw [this]

/-- Witness for C8: over the empty tree, adding `src/stripe.js` (attributed
only to payment compliance) raises the found count from 0 to 1 and the score
to 14; then adding `src/payout.ts` (attributed only to the already-found
payment category) changes no flag and keeps the score. -/
theorem complianceMonotone_spec_witness :
    foundCount ["src/stripe.js"] = foundCount ([] : List String) + 1 ∧
    complianceScoreOf (["src/stripe.js"] ++ ["src/payout.ts"]) =
      complianceScoreOf ["src/stripe.js"] := by
  constructor
  · exact (complianceMonotone_spec.1 [] "src/stripe.js" .paymentCompliance
      (by decide) (by decide)
      (fun k hk ha => by revert ha; cases k <;> first | decide | exact absurd rfl hk)).1
  · exact (complianceMonotone_spec.2 ["src/stripe.js"] "src/payout.ts"
      (fun k ha => by revert ha; cases k <;> decide)).2

/-! ## Shortlog parsing (CONTRIBUTORS acquisition) -/

/-- Numeric value of a digit run (embedding of `parseInt` on the digit
capture). -/
def digitsVal (l : List Char) : Nat :=
  l.foldl (fun n c => n * 10 + (c.toNat - '0'.toNat)) 0

/-- Embedding of the shortlog entry parse: on the trimmed line, a leading
run of digits, at least one whitespace character, then the author name
running to the end of the line; anything else parses to `none`. -/
def parseShortlogLine (line : String) : Option RawContributor :=
  let t := trimChars line.data
  let ds := t.takeWhile Char.isDigit
  let rest := t.drop ds.length
  match ds, rest with
  | [], _ => none
  | _ :: _, [] => none
  | _ :: _, c :: _ =>
    if isWs c then
      let name := rest.dropWhile isWs
      if name.isEmpty then none
      else some ⟨digitsVal ds, String.mk name⟩
    else none

/-- Embedding of `contributorsRaw`: nonblank shortlog lines, first 10 kept,
each parsed, unparseable lines dropped. -/
def contributorsRawOf (out : String) : List RawContributor :=
  ((splitLines out).take 10).filterMap parseShortlogLine

example : parseShortlogLine "   390  Zach Handley" = some ⟨390, "Zach Handley"⟩ := by
  decide
example : parseShortlogLine "no count here" = none := by decide

/-! ## Dead-code detector -/

/-- One unused-component finding. -/
structure UnusedComponent where
  path : String
  file : String
  component : String
deriving DecidableEq, Repr

/-- Embedding of the per-candidate test of the unused-component scan: skip
`index` (case-insensitive), `/pages/`, `/layouts/`; then flag the file when
neither its component name nor the kebab-case variant occurs in the usage
excerpt. -/
def componentCandidate (usages : String) (rel : String) : Option UnusedComponent :=
  let filename := basenameStr rel
  let componentName := stripExtStr rel
  if strLower componentName = "index" then none
  else if containsStr rel "/pages/" then none
  else if containsStr rel "/layouts/" then none
  else if !(containsStr usages componentName) && !(containsStr usages (kebabOf componentName))
    then some ⟨rel, filename, componentName⟩
  else none

/-- All unused-component findings, in candidate order (the array the scan
pushes into before the final cap). -/
def unusedComponentsAll (usages : String) (files : List String) : List UnusedComponent :=
  files.filterMap (componentCandidate usages)

/-- Embedding of `deadCode.unusedComponents`: the findings capped at 25. -/
def unusedComponentsOf (usages : String) (files : List String) : List UnusedComponent :=
  (unusedComponentsAll usages files).take 25

/-- One unused-export finding. -/
structure UnusedExport where
  path : String
  file : String
  exportName : String
deriving DecidableEq, Repr

/-- A word character of the export-matching pattern. -/
def isWordChar (c : Char) : Bool := c.isAlphanum || c = '_'

/-- Match a literal character-list pattern at the head, returning the rest. -/
def matchAfter (pat l : List Char) : Option (List Char) :=
  if pat.isPrefixOf l then some (l.drop pat.length) else none

/-- After the alternation keyword, require at least one whitespace and skip
the whitespace run. -/
def matchKwThenWs (kw : String) (r2 : List Char) : Option (List Char) :=
  match matchAfter kw.data r2 with
  | none => none
  | some r3 =>
    match r3 with
    | [] => none
    | c3 :: _ => if isWs c3 then some (r3.dropWhile isWs) else none

/-- Try to match `export\s+(const|function|class)\s+(\w+)` at the current
position; on success return the captured name and the rest of the input
after the match (the keyword alternatives are mutually non-prefixing, so
first-success equals the regex alternation). -/
def matchExportAt (l : List Char) : Option (String × List Char) :=
  match matchAfter "export".data l with
  | none => none
  | some r1 =>
    match r1 with
    | [] => none
    | c1 :: _ =>
      if isWs c1 then
        let r2 := r1.dropWhile isWs
        match (matchKwThenWs "const" r2).orElse
            (fun _ => (matchKwThenWs "function" r2).orElse
              (fun _ => matchKwThenWs "class" r2)) with
        | none => none
        | some r4 =>
          let name := r4.takeWhile isWordChar
          if name.isEmpty then none
          else some (String.mk name, r4.drop name.length)
      else none

/-- Global scan for all export matches (fueled; the fuel is the input
length, which bounds the number of scanning steps since every step consumes
at least one character). -/
def scanExportsAux : Nat → List Char → List String
  | 0, _ => []
  | _ + 1, [] => []
  | fuel + 1, l =>
    match matchExportAt l with
    | some (name, rest) => name :: scanExportsAux fuel rest
    | none =>
      match l with
      | [] => []
      | _ :: t => scanExportsAux fuel t

/-- Embedding of `content.match(export-pattern, global)` returning the
captured export names in order. -/
def scanExports (content : String) : List String :=
  scanExportsAux content.data.length content.data

example : scanExports "export const fooBar = 1\nexport function doIt() {}" =
    ["fooBar", "doIt"] := by decide
example : scanExports "reexport   class  Big_Thing summary" = ["Big_Thing"] := by decide
example : scanExports "export constant x" = [] := by decide

/-- Entry-point basenames skipped by the unused-export scan. -/
def exportSkipNames : List String :=
  ["index", "main", "app", "server", "cli", "config", "env", "types", "constants"]

/-- The unused-export findings one candidate file contributes: skip
entry-point basenames, consider at most 5 export matches, skip composable
(`use`-prefixed) and short names, and flag names absent (with the file
basename also absent) from the import excerpt. -/
def exportFindingsForFile (allImports : String) (f content : String) :
    List UnusedExport :=
  let filename := basenameStr f
  let base := stripExtStr f
  if exportSkipNames.contains (strLower base) then []
  else
    ((scanExports content).take 5).filterMap (fun exportName =>
      if strStartsWith exportName "use" then none
      else if exportName.length < 4 then none
      else if !(containsStr allImports exportName) && !(containsStr allImports base) then
        some ⟨f, filename, exportName⟩
      else none)

/-- Embedding of `deadCode.unusedExports`: at most 30 candidate files are
scanned and the collected findings are capped at 20. -/
def unusedExportsOf (allImports : String) (files : List (String × String)) :
    List UnusedExport :=
  ((files.take 30).flatMap (fun fc => exportFindingsForFile allImports fc.1 fc.2)).take 20

/-- Entry-point basenames skipped by the orphaned-file scan. -/
def orphanSkipNames : List String :=
  ["index", "main", "app", "server", "env", "config", "types", "utils"]

/-- Embedding of `deadCode.unusedFiles`: source files whose basename (sans
extension) is not stoplisted, not underscore-prefixed, and absent from the
reference excerpt; capped at 20. -/
def unusedFilesOf (allRefs : String) (files : List String) : List (String × String) :=
  (files.filterMap (fun f =>
    let base := stripExtStr f
    if orphanSkipNames.contains (strLower base) then none
    else if strStartsWith base "_" then none
    else if !(containsStr allRefs base) then some (f, basenameStr f)
    else none)).take 20

/-! ## Run-level error handling

The analyzer's collaborators (`git`, `find`, `grep`, `gh`) are modeled as
optional outputs in an environment: `none` is a failed call (the process
threw).  The `git` helper catches and returns the empty string, the scan
steps wrap their calls in try/catch and keep their empty defaults, and the
initial `git rev-parse` probe is the only call whose failure exits the
run. -/
structure Env where
  revParse : Option String
  churnLog : Option String
  shortlog : Option String
  contribLog : String → Option String
  componentFind : Option String
  usagesGrep : Option String
  complianceGrep : Option String
  ghIssues : Option (List String)

/-- The slice of the report the modeled scan steps produce.  The compliance
flags and score are derived from `complianceMatches` by `categoryFound` and
`complianceScoreOf`. -/
structure Report where
  topFiles : List FileChurnRecord
  contributors : List Contributor
  unusedComponents : List UnusedComponent
  complianceMatches : List String
  openIssues : List String
deriving DecidableEq

/-- Embedding of the control flow of `runAnalysis`: abort (non-zero exit)
exactly when the `git rev-parse --git-dir` precondition probe fails;
otherwise every scan step runs, with each failed collaborator call degraded
per its own try/catch (empty string for the `git` helper and the inner
usages grep, empty list for a failed step body or for `gh`). -/
def runAnalysis (e : Env) : Except String Report :=
  match e.revParse with
  | none => Except.error "Not a git repository"
  | some _ =>
    Except.ok
      { topFiles := topFilesOf (splitStr '\n' (e.churnLog.getD "")),
        contributors := (contributorsRawOf (e.shortlog.getD "")).map
          (fun rc => analyzeContributor rc ((e.contribLog rc.name).getD "")),
        unusedComponents :=
          match e.componentFind with
          | none => []
          | some out => unusedComponentsOf (e.usagesGrep.getD "") (splitLines out),
        complianceMatches :=
          match e.complianceGrep with
          | none => []
          | some out => splitLines out,
        openIssues := e.ghIssues.getD [] }

/-- C5 (amended): the failed rev-parse probe is the only abort; a failed
churn log, shortlog, component find, compliance grep or gh call degrades its
own step to an empty result; but a failed usages grep only degrades the
occurrence index to the empty string while the unused-component step still
runs over the found candidates (and can therefore report non-empty
findings). -/
theorem errorHandling_spec (e : Env) :
    ((runAnalysis e).toOption.isSome = true ↔ e.revParse.isSome = true) ∧
    (∀ r : Report, runAnalysis e = Except.ok r →
      (e.churnLog = none → r.topFiles = []) ∧
      (e.shortlog = none → r.contributors = []) ∧
      (e.componentFind = none → r.unusedComponents = []) ∧
      (e.complianceGrep = none → r.complianceMatches = []) ∧
      (e.ghIssues = none → r.openIssues = []) ∧
      (∀ out, e.componentFind = some out →
        r.unusedComponents = unusedComponentsOf (e.usagesGrep.getD "") (splitLines out))) := by
  cases hrev : e.revParse with
  | none =>
    constructor
    · simp [runAnalysis, hrev, Except.toOption]
    · intro r h
      simp [runAnalysis, hrev] at h
  | some s =>
    constructor
    · simp [runAnalysis, hrev, Except.toOption]
    · intro r h
      simp only [runAnalysis, hrev, Except.ok.injEq] at h
      subst h
      refine ⟨?_, ?_, ?_, ?_, ?_, ?_⟩
      · intro hc; rw [hc]; rfl
      · intro hc; rw [hc]; rfl
      · intro hc; simp [hc]
      · intro hc; simp [hc]
      · intro hc; rw [hc]; rfl
      · intro out hout; simp [hout]

/-- Witness for C5 (amended): a run whose precondition probe succeeds and
whose every other collaborator fails still produces a report, with the churn
list empty. -/
theorem errorHandling_spec_witness :
    (runAnalysis ⟨some "", none, none, fun _ => none, none, none, none, none⟩).toOption.isSome
      = true :=
  (errorHandling_spec _).1.mpr (by decide)

/-- Environment where the usages grep fails while the component find
succeeds with one candidate and the precondition probe succeeds. -/
def envUsageGrepFails : Env :=
  { revParse := some "",
    churnLog := none,
    shortlog := none,
    contribLog := fun _ => none,
    componentFind := some "components/Foo.vue",
    usagesGrep := none,
    complianceGrep := none,
    ghIssues := none }

/-- Counterexample to C5 as stated: with a failed usages grep (a search
failure) but a successful component find, the run still completes and the
unused-components step produces a NON-empty result (every candidate is
flagged against the empty occurrence index), so this collaborator failure
does not degrade the affected scan step to an empty result. -/
theorem errorHandling_claim_counterexample :
    envUsageGrepFails.usagesGrep = none ∧
    (runAnalysis envUsageGrepFails).toOption.isSome = true ∧
    Option.map Report.unusedComponents (runAnalysis envUsageGrepFails).toOption ≠
      some [] := by decide

/-- C9: at most 10 contributors are analyzed and emitted — the raw list
keeps only the first 10 parseable shortlog lines, the report's contributor
list (with all derived data) is exactly the analysis of that list, and when
the shortlog output is sorted by descending commit count (as `git shortlog
-sn` produces) every dropped author has a commit count no higher than every
kept author. -/
theorem contributorsTop10_spec (out : String) :
    (contributorsRawOf out).length ≤ 10 ∧
    (∀ (e : Env) (r : Report), runAnalysis e = Except.ok r →
      r.contributors = (contributorsRawOf (e.shortlog.getD "")).map
        (fun rc => analyzeContributor rc ((e.contribLog rc.name).getD "")) ∧
      r.contributors.length ≤ 10) ∧
    (List.Pairwise (fun a b => b.commits ≤ a.commits)
        ((splitLines out).filterMap parseShortlogLine) →
      ∀ a ∈ contributorsRawOf out,
        ∀ b ∈ ((splitLines out).drop 10).filterMap parseShortlogLine,
          b.commits ≤ a.commits) := by
  have hlen : ∀ s : String, (contributorsRawOf s).length ≤ 10 := by
    intro s
    exact le_trans (List.length_filterMap_le _ _) (List.length_take_le _ _)
  refine ⟨hlen out, ?_, ?_⟩
  · intro e r h
    cases hrev : e.revParse with
    | none => rw [runAnalysis, hrev] at h; exact absurd h (by simp)
    | some s =>
      rw [runAnalysis, hrev] at h
      rcases Except.ok.inj h with rfl
      exact ⟨rfl, by rw [List.length_map]; exact hlen _⟩
  · intro hsorted a ha b hb
    have hsplit : (splitLines out).filterMap parseShortlogLine =
        ((splitLines out).take 10).filterMap parseShortlogLine ++
        ((splitLines out).drop 10).filterMap parseShortlogLine := by
      rw [← List.filterMap_append, List.take_append_drop]
    rw [hsplit] at hsorted
    exact (List.pairwise_append.mp hsorted).2.2 a ha b hb

/-- Witness for C9: an eleven-line descending shortlog; the theorem's sorted
hypothesis holds, the first kept author has 12 commits, the dropped eleventh
has 2, and the dropped count is no higher. -/
theorem contributorsTop10_spec_witness :
    (2 : Nat) ≤ 12 :=
  (contributorsTop10_spec
      "12 a\n11 b\n10 c\n9 d\n8 e\n7 f\n6 g\n5 h\n4 i\n3 j\n2 k").2.2
    (by decide) ⟨12, "a"⟩ (by decide) ⟨2, "k"⟩ (by decide)

/-- C4 (amended): a `.vue` candidate under `components/` is collected as an
unused-component finding (the pre-cap list) exactly when it passes the
skip-list (name not `index` case-insensitively, path containing neither
`/pages/` nor `/layouts/`) and neither its component name nor the kebab-case
variant occurs as a substring of the bounded usage excerpt; the reported
list is that list truncated to its first 25 findings. -/
theorem unusedComponents_spec (usages : String) (files : List String) :
    unusedComponentsOf usages files = (unusedComponentsAll usages files).take 25 ∧
    (∀ rel ∈ files,
      ((∃ u ∈ unusedComponentsAll usages files, u.path = rel) ↔
        (strLower (stripExtStr rel) ≠ "index" ∧
         containsStr rel "/pages/" = false ∧
         containsStr rel "/layouts/" = false ∧
         containsStr usages (stripExtStr rel) = false ∧
         containsStr usages (kebabOf (stripExtStr rel)) = false))) := by
  refine ⟨rfl, ?_⟩
  intro rel hrel
  constructor
  · rintro ⟨u, hu, hpath⟩
    rcases List.mem_filterMap.mp hu with ⟨rel', _, hc⟩
    rw [componentCandidate] at hc
    split_ifs at hc with h1 h2 h3 h4
    rcases Option.some.inj hc with rfl
    rcases hpath with rfl
    rcases (Bool.and_eq_true _ _).mp h4 with ⟨ha, hb⟩
    refine ⟨h1, ?_, ?_, ?_, ?_⟩
    · revert h2; cases containsStr rel' "/pages/" <;> simp
    · revert h3; cases containsStr rel' "/layouts/" <;> simp
    · revert ha; cases containsStr usages (stripExtStr rel') <;> simp
    · revert hb; cases containsStr usages (kebabOf (stripExtStr rel')) <;> simp
  · rintro ⟨h1, h2, h3, h4, h5⟩
    refine ⟨⟨rel, basenameStr rel, stripExtStr rel⟩, ?_, rfl⟩
    apply List.mem_filterMap.mpr
    refine ⟨rel, hrel, ?_⟩
    rw [componentCandidate]
    rw [if_neg h1, if_neg (by simp [h2]), if_neg (by simp [h3]),
      if_pos (by simp [h4, h5])]

/-- Twenty-six distinct `.vue` candidates under `components/`
(`CompA.vue` … `CompZ.vue`). -/
def vueCandidates26 : List String :=
  (List.range 26).map
    (fun i => "components/Comp" ++ String.mk [Char.ofNat (65 + i)] ++ ".vue")

/-- Counterexample to C4 as stated: against the empty usage excerpt all 26
candidates pass the skip-list and are absent from the index, but only the
first 25 are reported — `components/CompZ.vue` satisfies the claim's
condition and is in the candidate list, yet no reported finding carries its
path. -/
theorem unusedComponents_claim_counterexample :
    (strLower (stripExtStr "components/CompZ.vue") ≠ "index" ∧
     containsStr "components/CompZ.vue" "/pages/" = false ∧
     containsStr "components/CompZ.vue" "/layouts/" = false ∧
     containsStr "" (stripExtStr "components/CompZ.vue") = false ∧
     containsStr "" (kebabOf (stripExtStr "components/CompZ.vue")) = false) ∧
    "components/CompZ.vue" ∈ vueCandidates26 ∧
    (unusedComponentsOf "" vueCandidates26).all
      (fun u => u.path != "components/CompZ.vue") = true := by decide

/-- Witness for C4 (amended): one candidate, flagged, with the equivalence
instantiated at it. -/
theorem unusedComponents_spec_witness :
    ∃ u ∈ unusedComponentsAll "" ["components/Foo.vue"], u.path = "components/Foo.vue" :=
  ((unusedComponents_spec "" ["components/Foo.vue"]).2 "components/Foo.vue"
    (by decide)).mpr (by decide)

/-- C10: every dead-code finding list is bounded — at most 25 unused
components, at most 20 unused exports, at most 20 orphaned files; the
export scan depends only on the first 30 candidate files and takes at most 5
export matches per file. -/
theorem deadCodeBounds_spec :
    (∀ (usages : String) (files : List String),
      (unusedComponentsOf usages files).length ≤ 25) ∧
    (∀ (allImports : String) (files : List (String × String)),
      (unusedExportsOf allImports files).length ≤ 20) ∧
    (∀ (allRefs : String) (files : List String),
      (unusedFilesOf allRefs files).length ≤ 20) ∧
    (∀ (allImports : String) (files : List (String × String)),
      unusedExportsOf allImports files = unusedExportsOf allImports (files.take 30)) ∧
    (∀ allImports f content : String,
      (exportFindingsForFile allImports f content).length ≤ 5) := by
  refine ⟨?_, ?_, ?_, ?_, ?_⟩
  · intro usages files
    exact List.length_take_le _ _
  · intro allImports files
    exact List.length_take_le _ _
  · intro allRefs files
    exact List.length_take_le _ _
  · intro allImports files
    rw [unusedExportsOf, unusedExportsOf, List.take_take]
    simp
  · intro allImports f content
    rw [exportFindingsForFile]
    split
    · simp
    · exact le_trans (List.length_filterMap_le _ _) (List.length_take_le _ _)
